import Mathlib

/-
Shallow embedding of the Telegram calendar agent (src/index.ts, first draft,
lines 1-661).  The three process-wide JS Maps (pendingEvents, oauthAccounts,
disabledCalendars) are modelled as association lists with JS-Map semantics
(get = first matching key, set = in-place replace or append, delete = remove
entry).  External collaborators (the LLM extraction backends, the Google
calendar insert call) are modelled as oracles passed to the handlers.
-/

namespace TgCal

/-- One calendar of an account's roster (src/index.ts line 51). -/
structure Calendar where
  id : String
  summary : String
deriving DecidableEq

/-- An authenticated account (src/index.ts lines 47-52).  The live
OAuth2Client is represented only by its inert credential material
(`tokens`), which is what `saveAuthCache` persists. -/
structure OAuthAccount where
  accountId : Int
  email : Option String
  tokens : String
  calendars : List Calendar
deriving DecidableEq

/-- A candidate event (src/index.ts lines 29-36).  `accountId` and
`calendar` are optional here because `addEventToCalendar` receives them as
optional and the values come from parsed JSON. -/
structure CalendarEvent where
  title : String
  start_time : String
  end_time : String
  description : String
  accountId : Option Int
  calendar : Option String
deriving DecidableEq

/-- The per-conversation session (src/index.ts lines 38-43). -/
structure PendingEvents where
  events : List CalendarEvent
  originalText : String
  previousJSONProposal : Option String
  editHistory : Option String
deriving DecidableEq

/-- The process state: the three global maps of src/index.ts
(lines 45, 60, 65). -/
structure BotState where
  pendingEvents : List (Int × PendingEvents)
  oauthAccounts : List (Int × List OAuthAccount)
  disabledCalendars : List (Int × List (Int × List String))
deriving DecidableEq

def emptyBotState : BotState := ⟨[], [], []⟩

/-- JS `Map.get` / object property read: first entry with the key. -/
def mapGet {α : Type} : List (Int × α) → Int → Option α
  | [], _ => none
  | (k, v) :: rest, k' => if k = k' then some v else mapGet rest k'

/-- JS `Map.set` / object property write: replace in place, else append. -/
def mapSet {α : Type} : List (Int × α) → Int → α → List (Int × α)
  | [], k, v => [(k, v)]
  | (k0, v0) :: rest, k, v =>
    if k0 = k then (k0, v) :: rest else (k0, v0) :: mapSet rest k v

/-- JS `Map.delete`: remove the entry with the key. -/
def mapDel {α : Type} : List (Int × α) → Int → List (Int × α)
  | [], _ => []
  | (k0, v0) :: rest, k =>
    if k0 = k then rest else (k0, v0) :: mapDel rest k

/-- JS `Set.add` on an insertion-ordered set of strings. -/
def setAdd (l : List String) (x : String) : List String :=
  if x ∈ l then l else l ++ [x]

/-- ASCII decimal digit test (character codes 48..57). -/
def isDigitChar (c : Char) : Bool := decide (48 ≤ c.toNat ∧ c.toNat ≤ 57)

/-- The whitespace class stripped by JS `parseInt` (space, tab, newlines,
no-break space, BOM, line/paragraph separators). -/
def jsIsWhitespace (c : Char) : Bool :=
  decide (c.toNat = 32 ∨ (9 ≤ c.toNat ∧ c.toNat ≤ 13) ∨ c.toNat = 160 ∨
    c.toNat = 65279 ∨ c.toNat = 8232 ∨ c.toNat = 8233)

/-- Value of one character as a digit in the given radix, per the ECMAScript
`parseInt` digit alphabet (0-9, a-z, A-Z). -/
def digitVal (radix : Nat) (c : Char) : Option Nat :=
  let v : Nat :=
    if 48 ≤ c.toNat ∧ c.toNat ≤ 57 then c.toNat - 48
    else if 97 ≤ c.toNat ∧ c.toNat ≤ 122 then c.toNat - 97 + 10
    else if 65 ≤ c.toNat ∧ c.toNat ≤ 90 then c.toNat - 65 + 10
    else 99
  if v < radix then some v else none

def parseDigitsAux (radix : Nat) : List Char → Nat → Nat
  | [], acc => acc
  | c :: rest, acc =>
    match digitVal radix c with
    | some v => parseDigitsAux radix rest (acc * radix + v)
    | none => acc

/-- Longest digit run at the front of the character list; `none` when the
first character is not a digit of the radix (parseInt's NaN case). -/
def parseDigits (radix : Nat) : List Char → Option Nat
  | [] => none
  | c :: rest =>
    match digitVal radix c with
    | some v => some (parseDigitsAux radix rest v)
    | none => none

def headIsChar (cs : List Char) (c : Char) : Bool :=
  match cs with
  | [] => false
  | d :: _ => d == c

/-- Does the list begin with the hex marker "0x" / "0X"? -/
def hexMark (cs : List Char) : Bool :=
  match cs with
  | c :: d :: _ => c == '0' && (d == 'x' || d == 'X')
  | _ => false

/-- ECMAScript `parseInt(s)` with no radix argument: strip leading
whitespace, optional sign, optional hex marker, then the longest digit run;
`none` models NaN. -/
def jsParseInt (s : String) : Option Int :=
  let cs0 := s.toList.dropWhile jsIsWhitespace
  let neg : Bool := headIsChar cs0 '-'
  let cs1 := if headIsChar cs0 '-' || headIsChar cs0 '+' then cs0.tail else cs0
  let hex : Bool := hexMark cs1
  let radix : Nat := if hex then 16 else 10
  let cs2 := if hex then cs1.drop 2 else cs1
  match parseDigits radix cs2 with
  | none => none
  | some n => some (if neg then -(n : Int) else (n : Int))

/-- Positional decimal value of a digit string. -/
def decimalValue (cs : List Char) : Nat :=
  List.foldl (fun acc c => acc * 10 + (c.toNat - 48)) 0 cs

/-- `s` is a plain decimal numeral denoting `k` (nonempty, all ASCII
digits). -/
def isDecimalString (s : String) (k : Nat) : Prop :=
  s.toList ≠ [] ∧ (∀ c ∈ s.toList, isDigitChar c = true) ∧ decimalValue s.toList = k

/-- Index of the first occurrence of `c` (JS `String.indexOf`, with `none`
for -1). -/
def firstIdxOf (c : Char) (cs : List Char) : Option Nat :=
  cs.findIdx? (fun d => d == c)

/-- Index of the last occurrence of `c` (JS `String.lastIndexOf`, with
`none` for -1). -/
def lastIdxOf (c : Char) (cs : List Char) : Option Nat :=
  match (cs.reverse).findIdx? (fun d => d == c) with
  | none => none
  | some i => some (cs.length - 1 - i)

/-- JS `substring(start, stop)` for the in-range case: characters at
positions `start ≤ p < stop`. -/
def jsSubstring (cs : List Char) (start stop : Nat) : List Char :=
  (cs.take stop).drop start

/-- The span selected by extractJSON for an opening-char `a` and closing
char `b`: both present and the last `b` strictly after the first `a`
(src/index.ts lines 213-215 and 218-220). -/
def spanOf (a b : Char) (s : String) : Option (Nat × Nat) :=
  match firstIdxOf a s.toList, lastIdxOf b s.toList with
  | some i, some j => if i < j then some (i, j) else none
  | _, _ => none

/-- extractJSON (src/index.ts lines 212-224): prefer the first-'['..last-']'
span, else the first-'{'..last-'}' span, else throw (`none`). -/
def extractJSON (s : String) : Option String :=
  match spanOf '[' ']' s with
  | some (i, j) => some (String.mk (jsSubstring s.toList i (j + 1)))
  | none =>
    match spanOf '{' '}' s with
    | some (i, j) => some (String.mk (jsSubstring s.toList i (j + 1)))
    | none => none

/-- Result record of resolveCalendarId (src/index.ts line 130). -/
structure ResolveResult where
  success : Bool
  realCalendarId : String
  errorMsg : Option String
deriving DecidableEq

/-- The InvalidIndex error text (src/index.ts line 151). -/
def invalidIndexMsg (n : Nat) : String :=
  "Invalid calendar index. Please provide a number between 1 and " ++ toString n ++ "."

def findAccount (accounts : List OAuthAccount) (accountId : Int) : Option OAuthAccount :=
  accounts.find? (fun acc => acc.accountId == accountId)

/-- JS array indexing `l[i]` with an Int index: `none` for out of range
(JS would yield `undefined`). -/
def listGetInt {α : Type} (l : List α) (i : Int) : Option α :=
  if 0 ≤ i then l.get? i.toNat else none

/-- resolveCalendarId (src/index.ts lines 130-158).  The outer `Option` is
the runtime behaviour: `none` models an uncaught TypeError, which the
source throws when it evaluates `account.calendars[calendarIndex - 1].id`
at an out-of-range index (reachable only with `isStrict = false`). -/
def resolveCalendarId (st : BotState) (chatId accountId : Int)
    (calendarIdentifier : String) (isStrict : Bool) : Option ResolveResult :=
  match mapGet st.oauthAccounts chatId with
  | none =>
    if isStrict = true then some ⟨false, "", some "No authenticated accounts found."⟩
    else some ⟨true, calendarIdentifier, none⟩
  | some accounts =>
    match findAccount accounts accountId with
    | none =>
      if isStrict = true then
        some ⟨false, "", some ("Account " ++ toString accountId ++ " not found.")⟩
      else some ⟨true, calendarIdentifier, none⟩
    | some account =>
      match jsParseInt calendarIdentifier with
      | none => some ⟨true, calendarIdentifier, none⟩
      | some calendarIndex =>
        if isStrict = true ∧
            (calendarIndex < 1 ∨ (account.calendars.length : Int) < calendarIndex) then
          some ⟨false, "", some (invalidIndexMsg account.calendars.length)⟩
        else if isStrict = false ∨
            (1 ≤ calendarIndex ∧ calendarIndex ≤ (account.calendars.length : Int)) then
          match listGetInt account.calendars (calendarIndex - 1) with
          | some cal => some ⟨true, cal.id, none⟩
          | none => none
        else
          some ⟨true, calendarIdentifier, none⟩

/-- JS truthiness of `eventData.accountId` (0 and undefined are falsy). -/
def accountTruthy : Option Int → Bool
  | none => false
  | some k => k != 0

/-- `eventData.calendar || "primary"` ("" and undefined are falsy). -/
def calendarOrPrimary : Option String → String
  | none => "primary"
  | some s => if s = "" then "primary" else s

/-- `o || fb` for an optional string (undefined and "" are falsy). -/
def jsOrString (o : Option String) (fb : String) : String :=
  match o with
  | none => fb
  | some s => if s = "" then fb else s

/-- Outcome of one addEventToCalendar call, as reported to the chat. -/
inductive CommitOutcome where
  | noAccount : CommitOutcome
  | skippedDisabled (calendarId : String) (accountId : Int) : CommitOutcome
  | dispatched (calendarId : String) (accountId : Int) (ok : Bool) : CommitOutcome
deriving DecidableEq

/-- The external calendar insert collaborator: does the insert for
(accountId, calendarId, event) succeed? -/
def InsertOracle : Type := Int → String → CalendarEvent → Bool

/-- addEventToCalendar (src/index.ts lines 296-344).  Never mutates the
three maps; its try/catch around the insert makes a failure a reported
outcome, not an exception. -/
def addEventToCalendar (st : BotState) (chatId : Int) (ev : CalendarEvent)
    (insertOk : InsertOracle) : CommitOutcome :=
  let accounts := mapGet st.oauthAccounts chatId
  let viaId : Option OAuthAccount :=
    if accountTruthy ev.accountId then
      match accounts with
      | some l => findAccount l (ev.accountId.getD 0)
      | none => none
    else none
  let acct : Option OAuthAccount :=
    match viaId with
    | some a => some a
    | none =>
      match accounts with
      | some l => l.head?
      | none => none
  match acct with
  | none => .noAccount
  | some account =>
    let calendarIdToUse := calendarOrPrimary ev.calendar
    let userDisabled := (mapGet st.disabledCalendars chatId).getD []
    let dset := (mapGet userDisabled account.accountId).getD []
    if calendarIdToUse ∈ dset then .skippedDisabled calendarIdToUse account.accountId
    else .dispatched calendarIdToUse account.accountId
      (insertOk account.accountId calendarIdToUse ev)

/-- The `for (const eventData of pending.events)` loop of the confirm
callback (src/index.ts lines 561-563). -/
def commitAll (st : BotState) (chatId : Int) (evs : List CalendarEvent)
    (insertOk : InsertOracle) : List CommitOutcome :=
  match evs with
  | [] => []
  | e :: rest => addEventToCalendar st chatId e insertOk :: commitAll st chatId rest insertOk

structure ConfirmResult where
  state : BotState
  outcomes : List CommitOutcome
  notice : String
deriving DecidableEq

/-- The 'confirm' branch of the callback_query handler (src/index.ts lines
555-565): dispatch each candidate, then delete the session. -/
def confirmAction (st : BotState) (chatId : Int) (insertOk : InsertOracle) : ConfirmResult :=
  match mapGet st.pendingEvents chatId with
  | none => ⟨st, [], "No pending events to confirm."⟩
  | some pending =>
    ⟨{ st with pendingEvents := mapDel st.pendingEvents chatId },
     commitAll st chatId pending.events insertOk,
     "Events confirmed and added to your calendar."⟩

/-- The /confirm message handler (src/index.ts lines 455-463): only shows
the confirmation keyboard; it mutates nothing. -/
def confirmCommand (st : BotState) (chatId : Int) : BotState × String :=
  match mapGet st.pendingEvents chatId with
  | none => (st, "No pending events. Send an event description first.")
  | some _ => (st, "Please confirm your events:")

/-- The LLM extraction collaborator, abstracting the model-fallback chain,
extractJSON and JSON.parse of parseEventDescription: given the user text
and the prior-proposal trace included in the prompt, it returns the parsed
events and the JSON proposal string, or fails. -/
def Extract : Type := String → Option String → Option (List CalendarEvent × String)

/-- parseEventDescription's use of session state (src/index.ts lines
226-232): the prompt carries the previous JSON proposal only when the
session exists and the stored trace is truthy (nonempty). -/
def parseEventDescriptionModel (st : BotState) (chatId : Int) (userText : String)
    (extract : Extract) : Option (List CalendarEvent × String) :=
  let prior : Option String :=
    match mapGet st.pendingEvents chatId with
    | some p =>
      match p.previousJSONProposal with
      | some s => if s = "" then none else some s
      | none => none
    | none => none
  extract userText prior

def accountIdDisplay : Option Int → String
  | none => "undefined"
  | some k => toString k

def eventBlock (i : Nat) (evt : CalendarEvent) : String :=
  "\n\nEvent " ++ toString (i + 1) ++ ":" ++
  "\nTitle: " ++ evt.title ++
  "\nStart: " ++ evt.start_time ++
  "\nEnd: " ++ evt.end_time ++
  "\nDescription: " ++ evt.description ++
  "\nAccount: " ++ accountIdDisplay evt.accountId ++
  "\nCalendar: " ++ calendarOrPrimary evt.calendar

/-- formatEventsReply (src/index.ts lines 188-201). -/
def formatEventsReply (events : List CalendarEvent) (confirmMessage : String) : String :=
  "Proposed events:" ++
  String.join ((events.enum).map (fun p => eventBlock p.1 p.2)) ++
  "\n\n" ++ confirmMessage

/-- The free-text branch of the message handler (src/index.ts lines
536-546): delete the old session first, extract (with the now-empty trace),
then install the fresh session; on failure the old session stays deleted. -/
def freeTextHandler (st : BotState) (chatId : Int) (text : String)
    (extract : Extract) : BotState × String :=
  let st1 : BotState := { st with pendingEvents := mapDel st.pendingEvents chatId }
  match parseEventDescriptionModel st1 chatId text extract with
  | some (events, jsonProposal) =>
    let newSession : PendingEvents := ⟨events, text, some jsonProposal, some ""⟩
    ({ st1 with pendingEvents := mapSet st1.pendingEvents chatId newSession },
     formatEventsReply events "If these look good, type /confirm to add the events, or /edit to modify.")
  | none =>
    (st1, "Error parsing event description. Please ensure your description is clear and try again.")

/-- JS `String.prototype.trim`: strip leading and trailing whitespace. -/
def jsTrim (s : String) : String :=
  String.mk (((s.toList.dropWhile jsIsWhitespace).reverse.dropWhile jsIsWhitespace).reverse)

/-- `text.replace('/edit', '').trim()` for a message that starts with
"/edit": drop the five command characters and trim (src/index.ts line
467). -/
def editDelta (text : String) : String :=
  jsTrim (String.mk (text.toList.drop 5))

/-- The combined description built by the /edit handler (src/index.ts
lines 480-481). -/
def editCombined (pending : PendingEvents) (latestEdit : String) : String :=
  let previousEdits := pending.editHistory.getD ""
  "Original description: " ++ pending.originalText ++
  "\nUser requested changes:\nLatest edit: " ++ latestEdit ++ "\n" ++
  (if previousEdits ≠ "" then "Previously requested changes: " ++ previousEdits ++ "\n" else "")

/-- The /edit message handler (src/index.ts lines 466-500). -/
def editHandler (st : BotState) (chatId : Int) (text : String)
    (extract : Extract) : BotState × String :=
  let latestEdit := editDelta text
  if latestEdit = "" then
    (st, "Please provide the update changes after the /edit command.")
  else
    match mapGet st.pendingEvents chatId with
    | none => (st, "No pending events available to edit. Please provide an event description first.")
    | some pending =>
      let previousEdits := pending.editHistory.getD ""
      let newEditHistory :=
        if previousEdits ≠ "" then previousEdits ++ "\n" ++ latestEdit else latestEdit
      match parseEventDescriptionModel st chatId (editCombined pending latestEdit) extract with
      | none => (st, "Error parsing updated event description. Please try again.")
      | some (events, jsonProposal) =>
        let newPrev :=
          match pending.previousJSONProposal with
          | some prev => if prev ≠ "" then prev ++ "\n" ++ jsonProposal else jsonProposal
          | none => jsonProposal
        let newSession : PendingEvents :=
          ⟨events, pending.originalText, some newPrev, some newEditHistory⟩
        ({ st with pendingEvents := mapSet st.pendingEvents chatId newSession },
         formatEventsReply events "If these look good, type /confirm to add the events.")

/-- The core of the /disable handler after argument splitting (src/index.ts
lines 364-383): parse the account id, strict-resolve the calendar
reference, record the resolved real id in the disabled set.  The outer
`Option` propagates a resolver crash (never reached in strict mode). -/
def disableAction (st : BotState) (chatId : Int) (acctStr calRef : String) :
    Option (BotState × String) :=
  match jsParseInt acctStr with
  | none => some (st, "Invalid account id provided.")
  | some accountId =>
    match resolveCalendarId st chatId accountId calRef true with
    | none => none
    | some result =>
      if result.success = false then
        some (st, jsOrString result.errorMsg "Error resolving calendar id")
      else
        let realCalendarId := result.realCalendarId
        let userDisabled := (mapGet st.disabledCalendars chatId).getD []
        let dset := (mapGet userDisabled accountId).getD []
        let userDisabled1 := mapSet userDisabled accountId (setAdd dset realCalendarId)
        some ({ st with disabledCalendars := mapSet st.disabledCalendars chatId userDisabled1 },
          "Calendar " ++ realCalendarId ++ " for account " ++ toString accountId ++
          " has been disabled.")

/-- Account registration in the /oauth2callback route (src/index.ts lines
597-605): append an account with accountId = current count + 1. -/
def registerAccount (st : BotState) (chatId : Int) (email : Option String)
    (tokens : String) (cals : List Calendar) : BotState :=
  let existingAccounts := (mapGet st.oauthAccounts chatId).getD []
  let newAccount : OAuthAccount :=
    ⟨(existingAccounts.length : Int) + 1, email, tokens, cals⟩
  { st with oauthAccounts := mapSet st.oauthAccounts chatId (existingAccounts ++ [newAccount]) }

/-- The /clear handler (src/index.ts lines 503-509). -/
def clearConversation (st : BotState) (chatId : Int) : BotState :=
  { st with oauthAccounts := mapDel st.oauthAccounts chatId,
            disabledCalendars := mapDel st.disabledCalendars chatId }

/-- The operations that can touch the account registry. -/
inductive RegOp where
  | register (chatId : Int) (email : Option String) (tokens : String) (cals : List Calendar)
  | clear (chatId : Int)

def applyRegOp (st : BotState) : RegOp → BotState
  | .register c e t cals => registerAccount st c e t cals
  | .clear c => clearConversation st c

def applyRegOps (st : BotState) (ops : List RegOp) : BotState :=
  ops.foldl applyRegOp st

/-- Invariant: in every conversation the i-th stored account carries
accountId i+1. -/
def accountIdsSequential (st : BotState) : Prop :=
  ∀ c accounts, mapGet st.oauthAccounts c = some accounts →
    ∀ i a, accounts.get? i = some a → a.accountId = (i : Int) + 1

def keysNodup {α : Type} (m : List (Int × α)) : Prop :=
  (m.map Prod.fst).Nodup

/-- One conversation's persisted account record (src/index.ts lines
75-80). -/
structure SavedAccount where
  accountId : Int
  email : Option String
  calendars : List Calendar
  tokens : String
deriving DecidableEq

/-- One conversation's persisted record (src/index.ts lines 74-86).
`disabledCalendars = none` models a record with no disabled-set section
(saveAuthCache always writes one, but loadAuthCache tolerates its
absence). -/
structure ChatCacheData where
  accounts : List SavedAccount
  disabledCalendars : Option (List (Int × List String))
deriving DecidableEq

/-- One account's persisted shape (src/index.ts lines 75-80): the inert
fields plus the client's credential material. -/
def saveAccount (a : OAuthAccount) : SavedAccount :=
  ⟨a.accountId, a.email, a.calendars, a.tokens⟩

/-- saveAuthCache (src/index.ts lines 71-93), as the pure serialization it
performs; the file write itself is best-effort I/O. -/
def saveAuthCache (st : BotState) : List (Int × ChatCacheData) :=
  st.oauthAccounts.map (fun p =>
    (p.1,
     { accounts := p.2.map saveAccount,
       disabledCalendars := some ((mapGet st.disabledCalendars p.1).getD []) }))

def loadAccount (a : SavedAccount) : OAuthAccount :=
  ⟨a.accountId, a.email, a.tokens, a.calendars⟩

/-- loadAuthCache (src/index.ts lines 95-126), applied to an already-parsed
record: for each persisted conversation, rebuild the account list (a fresh
client around the saved tokens) and the disabled map (empty when the
section is missing). -/
def loadAuthCache (st : BotState) (data : List (Int × ChatCacheData)) : BotState :=
  data.foldl (fun acc p =>
    { acc with
      oauthAccounts := mapSet acc.oauthAccounts p.1 (p.2.accounts.map loadAccount),
      disabledCalendars := mapSet acc.disabledCalendars p.1 (p.2.disabledCalendars.getD []) }) st

/-- The disabled-calendar set recorded for one (conversation, account)
pair. -/
def disabledFor (st : BotState) (chatId acct : Int) : List String :=
  (mapGet ((mapGet st.disabledCalendars chatId).getD []) acct).getD []

/- Concrete instances used to exercise the theorems below. -/

def calA : Calendar := ⟨"cal-a", "Work"⟩

def calB : Calendar := ⟨"cal-b", "Home"⟩

def acct1 : OAuthAccount := ⟨1, some "a@x.test", "tokA", [calA, calB]⟩

def evPrim : CalendarEvent := ⟨"Dinner", "2025-01-01T18:00", "2025-01-01T19:00", "d", some 1, none⟩

def evCalB : CalendarEvent :=
  ⟨"Standup", "2025-01-02T09:00", "2025-01-02T09:15", "d2", some 1, some "cal-b"⟩

def evNew : CalendarEvent := ⟨"Lunch", "2025-01-03T12:00", "2025-01-03T13:00", "d3", some 1, none⟩

def sessionEx : PendingEvents := ⟨[evPrim, evCalB], "orig text", some "[old-json]", some ""⟩

def stReg : BotState := ⟨[], [(1, [acct1])], []⟩

def stSess : BotState := ⟨[(1, sessionEx)], [(1, [acct1])], []⟩

def oracleFalse : InsertOracle := fun _ _ _ => false

def extractFailAll : Extract := fun _ _ => none

/-- An extraction oracle that succeeds only when no prior trace is in the
prompt: freeTextHandler succeeding through it shows the old session's trace
was not fed to the new extraction. -/
def extractFreshOnly : Extract := fun _ prior =>
  match prior with
  | none => some ([evNew], "[new-json]")
  | some _ => none

def stC4 : BotState := ⟨[], [(1, [⟨1, none, "tok", [calA]⟩])], []⟩

def regOpsEx : List RegOp :=
  [RegOp.register 7 (some "a@x.test") "t1" [calA],
   RegOp.register 7 (some "b@x.test") "t2" [calB]]

def stPersist : BotState := ⟨[], [(1, [acct1])], [(1, [(1, ["cal-b"])])]⟩

theorem mapGet_mapSet_self {α : Type} (m : List (Int × α)) (k : Int) (v : α) :
    mapGet (mapSet m k v) k = some v := by
  induction m with
  | nil => simp [mapSet, mapGet]
  | cons p rest ih =>
    obtain ⟨k0, v0⟩ := p
    by_cases h : k0 = k
    · subst h; simp [mapSet, mapGet]
    · simp [mapSet, mapGet, h, ih]

theorem mapGet_mapSet_ne {α : Type} (m : List (Int × α)) (k k' : Int) (v : α)
    (h : k ≠ k') : mapGet (mapSet m k v) k' = mapGet m k' := by
  induction m with
  | nil => simp [mapSet, mapGet, h]
  | cons p rest ih =>
    obtain ⟨k0, v0⟩ := p
    by_cases h0 : k0 = k
    · subst h0; simp [mapSet, mapGet, h]
    · by_cases h1 : k0 = k' <;> simp [mapSet, mapGet, h0, h1, ih, Ne.symm h]

theorem mapGet_mapDel_ne {α : Type} (m : List (Int × α)) (k k' : Int)
    (h : k ≠ k') : mapGet (mapDel m k) k' = mapGet m k' := by
  induction m with
  | nil => simp [mapDel]
  | cons p rest ih =>
    obtain ⟨k0, v0⟩ := p
    by_cases h0 : k0 = k
    · subst h0
      simp [mapDel, mapGet, h]
    · by_cases h1 : k0 = k' <;> simp [mapDel, mapGet, h0, h1, ih, Ne.symm h]

theorem mapGet_eq_none_iff {α : Type} (m : List (Int × α)) (k : Int) :
    mapGet m k = none ↔ k ∉ m.map Prod.fst := by
  induction m with
  | nil => simp [mapGet]
  | cons p rest ih =>
    obtain ⟨k0, v0⟩ := p
    by_cases h : k0 = k
    · subst h; simp [mapGet]
    · have : ¬ k = k0 := fun he => h he.symm
      simp [mapGet, h, ih, this]

theorem mapGet_mapDel_self {α : Type} (m : List (Int × α)) (k : Int)
    (h : keysNodup m) : mapGet (mapDel m k) k = none := by
  induction m with
  | nil => simp [mapDel, mapGet]
  | cons p rest ih =>
    obtain ⟨k0, v0⟩ := p
    have h' : keysNodup rest := (List.nodup_cons.mp h).2
    by_cases h0 : k0 = k
    · subst h0
      have : k0 ∉ rest.map Prod.fst := (List.nodup_cons.mp h).1
      simp [mapDel, (mapGet_eq_none_iff rest k0).mpr this]
    · simp [mapDel, mapGet, h0, ih h']

theorem mem_keys_mapSet {α : Type} (m : List (Int × α)) (k k' : Int) (v : α) :
    k' ∈ (mapSet m k v).map Prod.fst ↔ k' ∈ m.map Prod.fst ∨ k' = k := by
  induction m with
  | nil => simp [mapSet]
  | cons p rest ih =>
    obtain ⟨k0, v0⟩ := p
    by_cases h : k0 = k
    · subst h; simp [mapSet]; tauto
    · simp [mapSet, h, ih]; tauto

theorem keysNodup_mapSet {α : Type} (m : List (Int × α)) (k : Int) (v : α)
    (h : keysNodup m) : keysNodup (mapSet m k v) := by
  induction m with
  | nil => simp [mapSet, keysNodup]
  | cons p rest ih =>
    obtain ⟨k0, v0⟩ := p
    simp only [keysNodup, List.map_cons, List.nodup_cons] at h
    obtain ⟨hnot, hrest⟩ := h
    by_cases h0 : k0 = k
    · subst h0
      have hms : mapSet ((k0, v0) :: rest) k0 v = (k0, v) :: rest := by simp [mapSet]
      rw [hms]
      simp only [keysNodup, List.map_cons, List.nodup_cons]
      exact ⟨hnot, hrest⟩
    · simp only [mapSet, if_neg h0, keysNodup, List.map_cons, List.nodup_cons]
      refine ⟨?_, ih hrest⟩
      rw [mem_keys_mapSet]
      rintro (hm | he)
      · exact hnot hm
      · exact h0 he

theorem keys_mapDel_subset {α : Type} (m : List (Int × α)) (k : Int) :
    (mapDel m k).map Prod.fst ⊆ m.map Prod.fst := by
  induction m with
  | nil => simp [mapDel]
  | cons q r ihr =>
    obtain ⟨kq, vq⟩ := q
    by_cases hq : kq = k
    · subst hq
      simp only [mapDel, if_pos rfl, List.map_cons]
      exact fun x hx => List.mem_cons_of_mem _ hx
    · simp only [mapDel, if_neg hq, List.map_cons]
      intro x hx
      rcases List.mem_cons.mp hx with hx | hx
      · exact List.mem_cons.mpr (Or.inl hx)
      · exact List.mem_cons_of_mem _ (ihr hx)

theorem keysNodup_mapDel {α : Type} (m : List (Int × α)) (k : Int)
    (h : keysNodup m) : keysNodup (mapDel m k) := by
  induction m with
  | nil => simp [mapDel, keysNodup]
  | cons p rest ih =>
    obtain ⟨k0, v0⟩ := p
    simp only [keysNodup, List.map_cons, List.nodup_cons] at h
    obtain ⟨hnot, hrest⟩ := h
    by_cases h0 : k0 = k
    · subst h0
      simpa [mapDel, keysNodup] using hrest
    · simp only [mapDel, if_neg h0, keysNodup, List.map_cons, List.nodup_cons]
      refine ⟨?_, ih hrest⟩
      intro hm
      exact hnot (keys_mapDel_subset rest k hm)

theorem isDigitChar_spec {c : Char} (h : isDigitChar c = true) :
    48 ≤ c.toNat ∧ c.toNat ≤ 57 := by
  simpa [isDigitChar] using h

theorem digit_not_ws {c : Char} (h : isDigitChar c = true) : jsIsWhitespace c = false := by
  have h' := isDigitChar_spec h
  simp only [jsIsWhitespace, decide_eq_false_iff_not]
  omega

theorem digit_beq_false {c d : Char} (h : isDigitChar c = true)
    (hd : isDigitChar d = false) : (c == d) = false := by
  refine beq_eq_false_iff_ne.mpr ?_
  intro he
  subst he
  simp [h] at hd

theorem digitVal_ten {c : Char} (h : isDigitChar c = true) :
    digitVal 10 c = some (c.toNat - 48) := by
  have h' := isDigitChar_spec h
  have hlt : c.toNat - 48 < 10 := by omega
  simp [digitVal, if_pos h', hlt]

theorem parseDigitsAux_digits (cs : List Char) (h : ∀ c ∈ cs, isDigitChar c = true)
    (acc : Nat) :
    parseDigitsAux 10 cs acc = List.foldl (fun a c => a * 10 + (c.toNat - 48)) acc cs := by
  induction cs generalizing acc with
  | nil => simp [parseDigitsAux]
  | cons c rest ih =>
    have hc : isDigitChar c = true := h c (by simp)
    have hrest : ∀ d ∈ rest, isDigitChar d = true := fun d hd => h d (by simp [hd])
    simp [parseDigitsAux, digitVal_ten hc, ih hrest]

theorem parseDigits_digits (cs : List Char) (hne : cs ≠ [])
    (h : ∀ c ∈ cs, isDigitChar c = true) :
    parseDigits 10 cs = some (decimalValue cs) := by
  cases cs with
  | nil => exact absurd rfl hne
  | cons c rest =>
    have hc : isDigitChar c = true := h c (by simp)
    have hrest : ∀ d ∈ rest, isDigitChar d = true := fun d hd => h d (by simp [hd])
    simp [parseDigits, digitVal_ten hc, parseDigitsAux_digits rest hrest, decimalValue]

theorem dropWhile_digits (cs : List Char) (h : ∀ c ∈ cs, isDigitChar c = true) :
    cs.dropWhile jsIsWhitespace = cs := by
  cases cs with
  | nil => rfl
  | cons c rest =>
    have hc : isDigitChar c = true := h c (by simp)
    simp [List.dropWhile_cons, digit_not_ws hc]

theorem headIsChar_digit {c : Char} (rest : List Char) (ch : Char)
    (h : isDigitChar c = true) (hch : isDigitChar ch = false) :
    headIsChar (c :: rest) ch = false := by
  simp [headIsChar, digit_beq_false h hch]

theorem hexMark_digits (cs : List Char) (h : ∀ c ∈ cs, isDigitChar c = true) :
    hexMark cs = false := by
  match cs with
  | [] => rfl
  | [c] => rfl
  | c :: d :: rest =>
    have hd : isDigitChar d = true := h d (by simp)
    simp [hexMark, digit_beq_false hd (show isDigitChar 'x' = false by decide),
      digit_beq_false hd (show isDigitChar 'X' = false by decide)]

theorem jsParseInt_decimal {s : String} {k : Nat} (h : isDecimalString s k) :
    jsParseInt s = some (k : Int) := by
  obtain ⟨hne, hdig, hval⟩ := h
  cases hcs : s.toList with
  | nil => exact absurd hcs hne
  | cons c rest =>
    rw [hcs] at hdig hval
    have hc : isDigitChar c = true := hdig c (by simp)
    have hdw := dropWhile_digits (c :: rest) hdig
    have hneg := headIsChar_digit rest '-' hc (by decide)
    have hplus := headIsChar_digit rest '+' hc (by decide)
    have hhex := hexMark_digits (c :: rest) hdig
    have hpd := parseDigits_digits (c :: rest) (by simp) hdig
    have hcs' : s.data = c :: rest := hcs
    simp [jsParseInt, hcs, hcs', hdw, hneg, hplus, hhex, hpd, hval]

theorem commitAll_eq_map (st : BotState) (chatId : Int) (evs : List CalendarEvent)
    (oracle : InsertOracle) :
    commitAll st chatId evs oracle = evs.map (fun e => addEventToCalendar st chatId e oracle) := by
  induction evs with
  | nil => rfl
  | cons e rest ih => simp [commitAll, ih]

theorem findAccount_accountId {accounts : List OAuthAccount} {aid : Int}
    {a : OAuthAccount} (h : findAccount accounts aid = some a) : a.accountId = aid := by
  have := List.find?_some h
  exact beq_iff_eq.mp this

theorem mapGet_map_keydep {α β : Type} (g : Int → α → β) (m : List (Int × α)) (c : Int) :
    mapGet (m.map (fun p => (p.1, g p.1 p.2))) c = (mapGet m c).map (g c) := by
  induction m with
  | nil => rfl
  | cons p rest ih =>
    obtain ⟨k, v⟩ := p
    by_cases h : k = c
    · subst h; simp [mapGet]
    · simp [mapGet, h, ih]

theorem saveAuthCache_keys (st : BotState) :
    (saveAuthCache st).map Prod.fst = st.oauthAccounts.map Prod.fst := by
  simp [saveAuthCache, List.map_map]

theorem loadAccount_roundtrip (l : List OAuthAccount) :
    (l.map saveAccount).map loadAccount = l := by
  induction l with
  | nil => rfl
  | cons a rest ih => simp [saveAccount, loadAccount, ih]

theorem loadAuthCache_not_mem (data : List (Int × ChatCacheData)) (st : BotState) (c : Int)
    (h : c ∉ data.map Prod.fst) :
    mapGet (loadAuthCache st data).oauthAccounts c = mapGet st.oauthAccounts c ∧
    mapGet (loadAuthCache st data).disabledCalendars c = mapGet st.disabledCalendars c := by
  induction data generalizing st with
  | nil => exact ⟨rfl, rfl⟩
  | cons p rest ih =>
    obtain ⟨k, cd⟩ := p
    simp only [List.map_cons, List.mem_cons, not_or] at h
    obtain ⟨hne, hmem⟩ := h
    have hk : k ≠ c := fun he => hne he.symm
    have step := ih ({ st with
      oauthAccounts := mapSet st.oauthAccounts k (cd.accounts.map loadAccount),
      disabledCalendars := mapSet st.disabledCalendars k (cd.disabledCalendars.getD []) }) hmem
    refine ⟨?_, ?_⟩
    · rw [show loadAuthCache st ((k, cd) :: rest) = loadAuthCache ({ st with
        oauthAccounts := mapSet st.oauthAccounts k (cd.accounts.map loadAccount),
        disabledCalendars := mapSet st.disabledCalendars k (cd.disabledCalendars.getD []) }) rest
        from rfl]
      rw [step.1]
      exact mapGet_mapSet_ne _ _ _ _ hk
    · rw [show loadAuthCache st ((k, cd) :: rest) = loadAuthCache ({ st with
        oauthAccounts := mapSet st.oauthAccounts k (cd.accounts.map loadAccount),
        disabledCalendars := mapSet st.disabledCalendars k (cd.disabledCalendars.getD []) }) rest
        from rfl]
      rw [step.2]
      exact mapGet_mapSet_ne _ _ _ _ hk

theorem loadAuthCache_mem (data : List (Int × ChatCacheData)) (st : BotState) (c : Int)
    (cd : ChatCacheData) (hnd : (data.map Prod.fst).Nodup) (hget : mapGet data c = some cd) :
    mapGet (loadAuthCache st data).oauthAccounts c = some (cd.accounts.map loadAccount) ∧
    mapGet (loadAuthCache st data).disabledCalendars c = some (cd.disabledCalendars.getD []) := by
  induction data generalizing st with
  | nil => simp [mapGet] at hget
  | cons p rest ih =>
    obtain ⟨k, cd0⟩ := p
    obtain ⟨hnot, hrest⟩ := List.nodup_cons.mp hnd
    by_cases hk : k = c
    · subst hk
      rw [show mapGet ((k, cd0) :: rest) k = some cd0 by simp [mapGet]] at hget
      obtain rfl : cd0 = cd := by injection hget
      have hni : k ∉ rest.map Prod.fst := hnot
      have step := loadAuthCache_not_mem rest ({ st with
        oauthAccounts := mapSet st.oauthAccounts k (cd0.accounts.map loadAccount),
        disabledCalendars := mapSet st.disabledCalendars k (cd0.disabledCalendars.getD []) }) k hni
      refine ⟨?_, ?_⟩
      · rw [show loadAuthCache st ((k, cd0) :: rest) = loadAuthCache ({ st with
          oauthAccounts := mapSet st.oauthAccounts k (cd0.accounts.map loadAccount),
          disabledCalendars := mapSet st.disabledCalendars k (cd0.disabledCalendars.getD []) }) rest
          from rfl]
        rw [step.1]
        exact mapGet_mapSet_self _ _ _
      · rw [show loadAuthCache st ((k, cd0) :: rest) = loadAuthCache ({ st with
          oauthAccounts := mapSet st.oauthAccounts k (cd0.accounts.map loadAccount),
          disabledCalendars := mapSet st.disabledCalendars k (cd0.disabledCalendars.getD []) }) rest
          from rfl]
        rw [step.2]
        exact mapGet_mapSet_self _ _ _
    · rw [show mapGet ((k, cd0) :: rest) c = mapGet rest c by simp [mapGet, hk]] at hget
      exact ih ({ st with
        oauthAccounts := mapSet st.oauthAccounts k (cd0.accounts.map loadAccount),
        disabledCalendars := mapSet st.disabledCalendars k (cd0.disabledCalendars.getD []) })
        hrest hget

theorem spanOf_eq_some_iff (a b : Char) (s : String) (i j : Nat) :
    spanOf a b s = some (i, j) ↔
      firstIdxOf a s.toList = some i ∧ lastIdxOf b s.toList = some j ∧ i < j := by
  unfold spanOf
  cases ho : firstIdxOf a s.toList with
  | none => simp
  | some i' =>
    cases hl : lastIdxOf b s.toList with
    | none => simp
    | some j' =>
      show (if i' < j' then some ((i', j')) else none) = some (i, j) ↔
        some i' = some i ∧ some j' = some j ∧ i < j
      by_cases hlt : i' < j'
      · rw [if_pos hlt]
        constructor
        · intro h
          have hp := Option.some.inj h
          have h1 : i' = i := congrArg Prod.fst hp
          have h2 : j' = j := congrArg Prod.snd hp
          subst h1; subst h2
          exact ⟨rfl, rfl, hlt⟩
        · rintro ⟨h1, h2, _⟩
          have h1' := Option.some.inj h1
          have h2' := Option.some.inj h2
          subst h1'; subst h2'
          rfl
      · rw [if_neg hlt]
        constructor
        · intro h; cases h
        · rintro ⟨h1, h2, h3⟩
          have h1' := Option.some.inj h1
          have h2' := Option.some.inj h2
          subst h1'; subst h2'
          exact absurd h3 hlt

/-- C1: /confirm dispatches every candidate of the session to the commit
path in list order, each independently of the others' success (the oracle
is arbitrary), then deletes the session unconditionally; with no session
the state is untouched and "nothing pending" is reported, both by the
/confirm command handler and by the confirm callback. -/
theorem confirm_dispatches_in_order_then_deletes (st : BotState) (chatId : Int)
    (oracle : InsertOracle) :
    (∀ p, mapGet st.pendingEvents chatId = some p →
      confirmAction st chatId oracle =
        ⟨{ st with pendingEvents := mapDel st.pendingEvents chatId },
         p.events.map (fun e => addEventToCalendar st chatId e oracle),
         "Events confirmed and added to your calendar."⟩) ∧
    (mapGet st.pendingEvents chatId = none →
      confirmAction st chatId oracle = ⟨st, [], "No pending events to confirm."⟩ ∧
      confirmCommand st chatId = (st, "No pending events. Send an event description first.")) := by
  constructor
  · intro p hp
    simp [confirmAction, hp, commitAll_eq_map]
  · intro hn
    constructor
    · simp [confirmAction, hn]
    · simp [confirmCommand, hn]

/-- Witness for C1: a session of two candidates, an insert oracle that
fails every commit; both candidates are still dispatched in order and the
session is deleted anyway. -/
theorem confirm_dispatches_in_order_then_deletes_witness :
    confirmAction stSess 1 oracleFalse =
      ⟨⟨[], [(1, [acct1])], []⟩,
       [.dispatched "primary" 1 false, .dispatched "cal-b" 1 false],
       "Events confirmed and added to your calendar."⟩ := by
  have h := (confirm_dispatches_in_order_then_deletes stSess 1 oracleFalse).1 sessionEx
    (by decide)
  exact h.trans (by decide)

/-- C2: a new free-text message while a session exists installs a fresh
session built only from the new extraction: candidates are the extraction
result, originalText the new message, editHistory empty, trace exactly the
new JSON.  The extraction oracle is consulted at prior trace `none`
(the old session is deleted before extracting), so no content of the old
session flows into the result. -/
theorem freeText_discards_old_session (st : BotState) (chatId : Int) (text : String)
    (extract : Extract) (p : PendingEvents) (evs : List CalendarEvent) (js : String)
    (hnd : keysNodup st.pendingEvents)
    (_hp : mapGet st.pendingEvents chatId = some p)
    (hx : extract text none = some (evs, js)) :
    mapGet (freeTextHandler st chatId text extract).1.pendingEvents chatId =
      some ⟨evs, text, some js, some ""⟩ ∧
    (freeTextHandler st chatId text extract).1.oauthAccounts = st.oauthAccounts ∧
    (freeTextHandler st chatId text extract).1.disabledCalendars = st.disabledCalendars := by
  have hdel := mapGet_mapDel_self st.pendingEvents chatId hnd
  refine ⟨?_, ?_, ?_⟩
  · simp only [freeTextHandler, parseEventDescriptionModel, hdel, hx]
    exact mapGet_mapSet_self _ _ _
  · simp only [freeTextHandler, parseEventDescriptionModel, hdel, hx]
  · simp only [freeTextHandler, parseEventDescriptionModel, hdel, hx]

/-- Witness for C2: the prior session stores a truthy trace "[old-json]",
yet extraction succeeds through an oracle that only answers when the prompt
carries no prior trace — so the fresh session comes from the new text
alone. -/
theorem freeText_discards_old_session_witness :
    mapGet (freeTextHandler stSess 1 "lunch friday" extractFreshOnly).1.pendingEvents 1 =
      some ⟨[evNew], "lunch friday", some "[new-json]", some ""⟩ :=
  (freeText_discards_old_session stSess 1 "lunch friday" extractFreshOnly sessionEx
    [evNew] "[new-json]" (by unfold keysNodup; decide) (by decide) (by decide)).1

/-- C5: /edit with an empty delta replies with the "please provide changes"
notice and returns the state unchanged; /edit with a nonempty delta whose
extraction call fails replies with the error notice and also returns the
state unchanged — the session mutates only on extraction success. -/
theorem edit_is_atomic (st : BotState) (chatId : Int) (text : String) (extract : Extract) :
    (editDelta text = "" →
      editHandler st chatId text extract =
        (st, "Please provide the update changes after the /edit command.")) ∧
    (∀ p, editDelta text ≠ "" →
      mapGet st.pendingEvents chatId = some p →
      parseEventDescriptionModel st chatId (editCombined p (editDelta text)) extract = none →
      editHandler st chatId text extract =
        (st, "Error parsing updated event description. Please try again.")) := by
  constructor
  · intro h
    simp [editHandler, h]
  · intro p hne hp hx
    simp [editHandler, hne, hp, hx]

/-- Witness for C5: "/edit   " (blank delta) and "/edit move it" with an
always-failing extraction backend both leave the session state exactly as
it was. -/
theorem edit_is_atomic_witness :
    editHandler stSess 1 "/edit   " extractFailAll =
      (stSess, "Please provide the update changes after the /edit command.") ∧
    editHandler stSess 1 "/edit move it" extractFailAll =
      (stSess, "Error parsing updated event description. Please try again.") := by
  constructor
  · exact (edit_is_atomic stSess 1 "/edit   " extractFailAll).1 (by decide)
  · exact (edit_is_atomic stSess 1 "/edit move it" extractFailAll).2 sessionEx
      (by decide) (by decide) (by decide)

/-- C6: extractJSON returns the substring from the first open bracket to
the last close bracket whenever the last ']' falls strictly after the
first '['; otherwise it falls back to the first-'{'..last-'}' span under
the same condition; otherwise it fails (NoJSONFound).  `spanOf` is exactly
that well-formedness condition, as the accompanying iff states. -/
theorem extractJSON_bracket_priority (s : String) :
    (∀ i j, spanOf '[' ']' s = some (i, j) →
      (firstIdxOf '[' s.toList = some i ∧ lastIdxOf ']' s.toList = some j ∧ i < j) ∧
      extractJSON s = some (String.mk (jsSubstring s.toList i (j + 1)))) ∧
    (spanOf '[' ']' s = none →
      (∀ i j, spanOf '{' '}' s = some (i, j) →
        (firstIdxOf '{' s.toList = some i ∧ lastIdxOf '}' s.toList = some j ∧ i < j) ∧
        extractJSON s = some (String.mk (jsSubstring s.toList i (j + 1)))) ∧
      (spanOf '{' '}' s = none → extractJSON s = none)) := by
  constructor
  · intro i j h
    refine ⟨(spanOf_eq_some_iff _ _ _ _ _).mp h, ?_⟩
    simp [extractJSON, h]
  · intro hnone
    constructor
    · intro i j h
      refine ⟨(spanOf_eq_some_iff _ _ _ _ _).mp h, ?_⟩
      simp [extractJSON, hnone, h]
    · intro h2
      simp [extractJSON, hnone, h2]

/-- Witness for C6: the three concrete examples; braces are written with
hex escapes.  The first yields the array span, the second the object span,
the third (a ']' before any '[' and no brace pair) fails. -/
theorem extractJSON_bracket_priority_witness :
    extractJSON "blah [ \x7b\"a\":1\x7d ] blah" = some "[ \x7b\"a\":1\x7d ]" ∧
    extractJSON "\x7b\"a\":1\x7d" = some "\x7b\"a\":1\x7d" ∧
    extractJSON "] x [" = none := by
  refine ⟨?_, ?_, ?_⟩
  · have h := ((extractJSON_bracket_priority "blah [ \x7b\"a\":1\x7d ] blah").1 5 15
      (by decide)).2
    exact h.trans (by decide)
  · have h := (((extractJSON_bracket_priority "\x7b\"a\":1\x7d").2 (by decide)).1 0 6
      (by decide)).2
    exact h.trans (by decide)
  · exact ((extractJSON_bracket_priority "] x [").2 (by decide)).2 (by decide)

theorem resolveCalendarId_strict_index_hit (st : BotState) (chatId aid : Int)
    (accounts : List OAuthAccount) (account : OAuthAccount) (s : String) (k : Nat)
    (cal : Calendar)
    (hget : mapGet st.oauthAccounts chatId = some accounts)
    (hfind : findAccount accounts aid = some account)
    (hdec : isDecimalString s k) (hk1 : 1 ≤ k)
    (hcal : account.calendars.get? (k - 1) = some cal) :
    resolveCalendarId st chatId aid s true = some ⟨true, cal.id, none⟩ := by
  have hparse := jsParseInt_decimal hdec
  have hlen : k - 1 < account.calendars.length := by
    obtain ⟨hw, -⟩ := List.get?_eq_some.mp hcal
    exact hw
  have hge : (0 : Int) ≤ (k : Int) - 1 := by omega
  have htn : ((k : Int) - 1).toNat = k - 1 := by omega
  have hidx : listGetInt account.calendars ((k : Int) - 1) = some cal := by
    simp only [listGetInt]
    rw [if_pos hge, htn]
    exact hcal
  simp only [resolveCalendarId, hget, hfind, hparse]
  split
  · next h => exact absurd h (by rintro ⟨-, h' | h'⟩ <;> omega)
  · split
    · rw [hidx]
    · next h2 => exact absurd (Or.inr ⟨by omega, by omega⟩) h2

/-- C3: strict resolveCalendarId on a decimal index string: in-range
indices resolve to that calendar's id, out-of-range indices yield the
InvalidIndex error naming the 1..n range, an unknown account yields the
UnknownAccount error, and a missing registry entry yields the NoAccounts
error. -/
theorem resolveCalendar_strict_cases (st : BotState) (chatId aid : Int) :
    (∀ s, mapGet st.oauthAccounts chatId = none →
      resolveCalendarId st chatId aid s true =
        some ⟨false, "", some "No authenticated accounts found."⟩) ∧
    (∀ s accounts, mapGet st.oauthAccounts chatId = some accounts →
      findAccount accounts aid = none →
      resolveCalendarId st chatId aid s true =
        some ⟨false, "", some ("Account " ++ toString aid ++ " not found.")⟩) ∧
    (∀ s k accounts account, mapGet st.oauthAccounts chatId = some accounts →
      findAccount accounts aid = some account →
      isDecimalString s k →
      ((∀ cal, 1 ≤ k → account.calendars.get? (k - 1) = some cal →
        resolveCalendarId st chatId aid s true = some ⟨true, cal.id, none⟩) ∧
       ((k = 0 ∨ account.calendars.length < k) →
        resolveCalendarId st chatId aid s true =
          some ⟨false, "", some (invalidIndexMsg account.calendars.length)⟩))) := by
  refine ⟨?_, ?_, ?_⟩
  · intro s hget
    simp [resolveCalendarId, hget]
  · intro s accounts hget hfind
    simp [resolveCalendarId, hget, hfind]
  · intro s k accounts account hget hfind hdec
    have hparse := jsParseInt_decimal hdec
    constructor
    · intro cal hk1 hcal
      exact resolveCalendarId_strict_index_hit st chatId aid accounts account s k cal
        hget hfind hdec hk1 hcal
    · intro hk
      simp only [resolveCalendarId, hget, hfind, hparse]
      split
      · rfl
      · next h =>
        refine absurd ⟨?_, ?_⟩ h
        · trivial
        · rcases hk with h' | h'
          · exact Or.inl (by omega)
          · exact Or.inr (by omega)

/-- Witness for C3: an account with two calendars: index "2" resolves to
the second calendar's id, "3" yields the InvalidIndex error naming 1..2,
account 9 yields UnknownAccount, and an unknown chat yields NoAccounts. -/
theorem resolveCalendar_strict_cases_witness :
    resolveCalendarId stReg 1 1 "2" true = some ⟨true, "cal-b", none⟩ ∧
    resolveCalendarId stReg 1 1 "3" true = some ⟨false, "", some (invalidIndexMsg 2)⟩ ∧
    resolveCalendarId stReg 1 9 "1" true =
      some ⟨false, "", some ("Account " ++ toString (9 : Int) ++ " not found.")⟩ ∧
    resolveCalendarId stReg 2 1 "1" true =
      some ⟨false, "", some "No authenticated accounts found."⟩ := by
  refine ⟨?_, ?_, ?_, ?_⟩
  · exact (((resolveCalendar_strict_cases stReg 1 1).2.2 "2" 2 [acct1] acct1 (by decide)
      (by decide) (by unfold isDecimalString; decide)).1 calB (by decide) (by decide)).trans
      (by decide)
  · exact (((resolveCalendar_strict_cases stReg 1 1).2.2 "3" 3 [acct1] acct1 (by decide)
      (by decide) (by unfold isDecimalString; decide)).2 (Or.inr (by decide))).trans (by decide)
  · exact (resolveCalendar_strict_cases stReg 1 9).2.1 "1" [acct1] (by decide) (by decide)
  · exact (resolveCalendar_strict_cases stReg 2 1).1 "1" (by decide)

/-- C10: with an existing account, an identifier is an index exactly when
parseInt finds a leading integer: when it does, the index is resolved
(in range) or rejected with InvalidIndex (strict, out of range); when no
leading integer exists, the identifier passes through unchanged in either
mode. -/
theorem resolveCalendar_parseInt_classification (st : BotState) (chatId aid : Int)
    (accounts : List OAuthAccount) (account : OAuthAccount) (id : String)
    (hget : mapGet st.oauthAccounts chatId = some accounts)
    (hfind : findAccount accounts aid = some account) :
    (∀ k : Int, jsParseInt id = some k →
      (∀ cal, 1 ≤ k → account.calendars.get? (k - 1).toNat = some cal →
        resolveCalendarId st chatId aid id true = some ⟨true, cal.id, none⟩) ∧
      ((k < 1 ∨ (account.calendars.length : Int) < k) →
        resolveCalendarId st chatId aid id true =
          some ⟨false, "", some (invalidIndexMsg account.calendars.length)⟩)) ∧
    (jsParseInt id = none →
      ∀ b, resolveCalendarId st chatId aid id b = some ⟨true, id, none⟩) := by
  constructor
  · intro k hk
    constructor
    · intro cal hk1 hcal
      have hlen : (k - 1).toNat < account.calendars.length := by
        obtain ⟨hw, -⟩ := List.get?_eq_some.mp hcal
        exact hw
      have hge : (0 : Int) ≤ k - 1 := by omega
      have hidx : listGetInt account.calendars (k - 1) = some cal := by
        simp only [listGetInt]
        rw [if_pos hge]
        exact hcal
      simp only [resolveCalendarId, hget, hfind, hk]
      split
      · next h => exact absurd h (by rintro ⟨-, h' | h'⟩ <;> omega)
      · split
        · rw [hidx]
        · next h2 => exact absurd (Or.inr ⟨by omega, by omega⟩) h2
    · intro hout
      simp only [resolveCalendarId, hget, hfind, hk]
      split
      · rfl
      · next h => exact absurd ⟨by trivial, hout⟩ h
  · intro hnone b
    simp [resolveCalendarId, hget, hfind, hnone]

/-- Witness for C10: "2abc" has numeric prefix 2 and resolves to the
second calendar, "9abc" has numeric prefix 9 and is rejected as an invalid
index, and "abc" (no leading integer) passes through unchanged. -/
theorem resolveCalendar_parseInt_classification_witness :
    resolveCalendarId stReg 1 1 "2abc" true = some ⟨true, "cal-b", none⟩ ∧
    resolveCalendarId stReg 1 1 "9abc" true = some ⟨false, "", some (invalidIndexMsg 2)⟩ ∧
    resolveCalendarId stReg 1 1 "abc" true = some ⟨true, "abc", none⟩ := by
  refine ⟨?_, ?_, ?_⟩
  · exact (((resolveCalendar_parseInt_classification stReg 1 1 [acct1] acct1 "2abc" (by decide)
      (by decide)).1 2 (by decide)).1 calB (by decide) (by decide)).trans (by decide)
  · exact (((resolveCalendar_parseInt_classification stReg 1 1 [acct1] acct1 "9abc" (by decide)
      (by decide)).1 9 (by decide)).2 (Or.inr (by decide))).trans (by decide)
  · exact (resolveCalendar_parseInt_classification stReg 1 1 [acct1] acct1 "abc" (by decide)
      (by decide)).2 (by decide) true

/-- Counterexample for C4: non-strict resolveCalendarId with an existing
account (one calendar) and identifier "2" does not return the literal "2";
it crashes (undefined-element access), modelled as `none`. -/
theorem resolveCalendar_nonstrict_counterexample :
    resolveCalendarId stC4 1 1 "2" false = none ∧
    resolveCalendarId stC4 1 1 "2" false ≠ some ⟨true, "2", none⟩ := by
  refine ⟨by decide, by decide⟩

/-- C4 amended: non-strict resolveCalendarId returns the literal
identifier unchanged on a missing registry or an unknown account, and
non-numeric identifiers pass through unchanged in both modes; but when the
account exists and the identifier has a numeric prefix outside [1, n],
non-strict mode reaches the indexing branch and crashes (TypeError on
`undefined.id`) instead of returning the literal. -/
theorem resolveCalendar_nonstrict_amended (st : BotState) (chatId aid : Int) (id : String) :
    (mapGet st.oauthAccounts chatId = none →
      resolveCalendarId st chatId aid id false = some ⟨true, id, none⟩) ∧
    (∀ accounts, mapGet st.oauthAccounts chatId = some accounts →
      findAccount accounts aid = none →
      resolveCalendarId st chatId aid id false = some ⟨true, id, none⟩) ∧
    (∀ accounts account, mapGet st.oauthAccounts chatId = some accounts →
      findAccount accounts aid = some account →
      jsParseInt id = none →
      ∀ b, resolveCalendarId st chatId aid id b = some ⟨true, id, none⟩) ∧
    (∀ accounts account (k : Int), mapGet st.oauthAccounts chatId = some accounts →
      findAccount accounts aid = some account →
      jsParseInt id = some k →
      (k < 1 ∨ (account.calendars.length : Int) < k) →
      resolveCalendarId st chatId aid id false = none) := by
  refine ⟨?_, ?_, ?_, ?_⟩
  · intro hget
    simp [resolveCalendarId, hget]
  · intro accounts hget hfind
    simp [resolveCalendarId, hget, hfind]
  · intro accounts account hget hfind hnone b
    simp [resolveCalendarId, hget, hfind, hnone]
  · intro accounts account k hget hfind hk hout
    have hidx : listGetInt account.calendars (k - 1) = none := by
      rcases hout with h | h
      · have : ¬ (0 : Int) ≤ k - 1 := by omega
        simp [listGetInt, this]
      · by_cases hge : (0 : Int) ≤ k - 1
        · have hlen : account.calendars.length ≤ (k - 1).toNat := by omega
          simp only [listGetInt]
          rw [if_pos hge]
          exact List.get?_eq_none.mpr hlen
        · simp [listGetInt, hge]
    simp only [resolveCalendarId, hget, hfind, hk]
    split
    · next h => exact absurd h.1 (by simp)
    · split
      · rw [hidx]
      · next h2 => exact absurd (Or.inl (by simp)) h2

/-- Witness for the amended C4: concrete instances of each clause —
missing registry, unknown account, non-numeric identifier, and the
out-of-range crash. -/
theorem resolveCalendar_nonstrict_amended_witness :
    resolveCalendarId stC4 2 1 "9" false = some ⟨true, "9", none⟩ ∧
    resolveCalendarId stC4 1 5 "9" false = some ⟨true, "9", none⟩ ∧
    resolveCalendarId stC4 1 1 "xyz" false = some ⟨true, "xyz", none⟩ ∧
    resolveCalendarId stC4 1 1 "0" false = none := by
  refine ⟨?_, ?_, ?_, ?_⟩
  · exact (resolveCalendar_nonstrict_amended stC4 2 1 "9").1 (by decide)
  · exact (resolveCalendar_nonstrict_amended stC4 1 5 "9").2.1 [⟨1, none, "tok", [calA]⟩]
      (by decide) (by decide)
  · exact (resolveCalendar_nonstrict_amended stC4 1 1 "xyz").2.2.1 [⟨1, none, "tok", [calA]⟩]
      ⟨1, none, "tok", [calA]⟩ (by decide) (by decide) (by decide) false
  · exact (resolveCalendar_nonstrict_amended stC4 1 1 "0").2.2.2 [⟨1, none, "tok", [calA]⟩]
      ⟨1, none, "tok", [calA]⟩ 0 (by decide) (by decide) (by decide) (Or.inl (by decide))

theorem applyRegOp_preserves (st : BotState) (op : RegOp)
    (h1 : keysNodup st.oauthAccounts) (h2 : accountIdsSequential st) :
    keysNodup (applyRegOp st op).oauthAccounts ∧ accountIdsSequential (applyRegOp st op) := by
  cases op with
  | clear c =>
    refine ⟨keysNodup_mapDel _ _ h1, ?_⟩
    intro c' accounts hc' i a ha
    simp only [applyRegOp, clearConversation] at hc'
    by_cases he : c = c'
    · subst he
      rw [mapGet_mapDel_self _ _ h1] at hc'
      cases hc'
    · rw [mapGet_mapDel_ne _ _ _ he] at hc'
      exact h2 c' accounts hc' i a ha
  | register c e t cals =>
    refine ⟨keysNodup_mapSet _ _ _ h1, ?_⟩
    intro c' accounts hc' i a ha
    by_cases he : c = c'
    · subst he
      rw [show (applyRegOp st (RegOp.register c e t cals)).oauthAccounts =
          mapSet st.oauthAccounts c (((mapGet st.oauthAccounts c).getD []) ++
            [⟨((((mapGet st.oauthAccounts c).getD []).length : Int)) + 1, e, t, cals⟩])
          from rfl] at hc'
      rw [mapGet_mapSet_self] at hc'
      have haccts := Option.some.inj hc'
      subst haccts
      have hexist : ∀ j b, ((mapGet st.oauthAccounts c).getD []).get? j = some b →
          b.accountId = (j : Int) + 1 := by
        cases hg : mapGet st.oauthAccounts c with
        | none => intro j b hb; simp [hg, mapGet] at hb
        | some l =>
          intro j b hb
          simp only [hg, Option.getD_some] at hb
          exact h2 c l hg j b hb
      set existing := (mapGet st.oauthAccounts c).getD [] with hex
      by_cases hi : i < existing.length
      · rw [List.get?_append hi] at ha
        exact hexist i a ha
      · push_neg at hi
        rw [List.get?_append_right hi] at ha
        have hi0 : i - existing.length = 0 := by
          by_contra hne
          have : 1 ≤ i - existing.length := Nat.one_le_iff_ne_zero.mpr hne
          rw [show ([(⟨((existing.length : Int)) + 1, e, t, cals⟩ : OAuthAccount)].get? (i - existing.length)) = none
            from List.get?_eq_none.mpr (by simpa using this)] at ha
          cases ha
        rw [hi0] at ha
        have haeq := Option.some.inj ha
        have hieq : i = existing.length := by omega
        subst hieq
        rw [← haeq]
    · rw [show (applyRegOp st (RegOp.register c e t cals)).oauthAccounts =
          mapSet st.oauthAccounts c (((mapGet st.oauthAccounts c).getD []) ++
            [⟨((((mapGet st.oauthAccounts c).getD []).length : Int)) + 1, e, t, cals⟩])
          from rfl] at hc'
      rw [mapGet_mapSet_ne _ _ _ _ he] at hc'
      exact h2 c' accounts hc' i a ha

/-- C8: starting from an empty process, after any sequence of account
registrations and whole-conversation clears, every conversation's i-th
stored account (0-based) carries accountId i+1 — ids are 1-based,
strictly increasing and gap-free, because registration assigns
accountId = current count + 1. -/
theorem accountIds_sequential_after_ops (ops : List RegOp) :
    accountIdsSequential (applyRegOps emptyBotState ops) := by
  suffices h : ∀ st, keysNodup st.oauthAccounts → accountIdsSequential st →
      keysNodup (applyRegOps st ops).oauthAccounts ∧
        accountIdsSequential (applyRegOps st ops) by
    refine (h emptyBotState ?_ ?_).2
    · simp [emptyBotState, keysNodup]
    · intro c accounts hc
      simp [emptyBotState, mapGet] at hc
  induction ops with
  | nil => intro st ha hb; exact ⟨ha, hb⟩
  | cons op rest ih =>
    intro st ha hb
    obtain ⟨ha', hb'⟩ := applyRegOp_preserves st op ha hb
    exact ih (applyRegOp st op) ha' hb'

/-- C9: /disable stores the RESOLVED real calendar id in the DisabledSet,
while the commit-time guard compares the candidate's literal calendar
string (defaulting to "primary" when unset).  Hence after disabling a
calendar whose real id is not the literal "primary", a candidate with an
unset or "primary" calendar is still dispatched to the primary calendar,
and only a candidate naming the disabled real id verbatim is skipped. -/
theorem disabled_guard_compares_literal (st : BotState) (chatId aid : Int)
    (accounts : List OAuthAccount) (account : OAuthAccount) (aStr s : String) (k : Nat)
    (cal : Calendar) (ev : CalendarEvent) (oracle : InsertOracle)
    (hacc : mapGet st.oauthAccounts chatId = some accounts)
    (hfind : findAccount accounts aid = some account)
    (haStr : jsParseInt aStr = some aid)
    (hdec : isDecimalString s k)
    (hk1 : 1 ≤ k)
    (hcal : account.calendars.get? (k - 1) = some cal)
    (hnp : cal.id ≠ "primary")
    (hne : cal.id ≠ "")
    (hdis : mapGet st.disabledCalendars chatId = none)
    (hev : ev.calendar = none ∨ ev.calendar = some "primary")
    (hevAcc : ev.accountId = some aid)
    (haid : aid ≠ 0) :
    disableAction st chatId aStr s =
      some ({ st with disabledCalendars :=
                mapSet st.disabledCalendars chatId [(aid, [cal.id])] },
        "Calendar " ++ cal.id ++ " for account " ++ toString aid ++ " has been disabled.") ∧
    addEventToCalendar
      { st with disabledCalendars := mapSet st.disabledCalendars chatId [(aid, [cal.id])] }
      chatId ev oracle = .dispatched "primary" aid (oracle aid "primary" ev) ∧
    addEventToCalendar
      { st with disabledCalendars := mapSet st.disabledCalendars chatId [(aid, [cal.id])] }
      chatId { ev with calendar := some cal.id } oracle = .skippedDisabled cal.id aid := by
  have haid' : account.accountId = aid := findAccount_accountId hfind
  have hres : resolveCalendarId st chatId aid s true = some ⟨true, cal.id, none⟩ :=
    resolveCalendarId_strict_index_hit st chatId aid accounts account s k cal
      hacc hfind hdec hk1 hcal
  have htru : accountTruthy ev.accountId = true := by
    rw [hevAcc]
    simpa [accountTruthy] using haid
  have hcalU : calendarOrPrimary ev.calendar = "primary" := by
    rcases hev with h | h <;> simp [calendarOrPrimary, h]
  refine ⟨?_, ?_, ?_⟩
  · simp [disableAction, haStr, hres, hdis, mapGet, setAdd, mapSet]
  · simp only [addEventToCalendar, hacc, htru, hevAcc, Option.getD_some, hfind, hcalU,
      mapGet_mapSet_self, haid']
    simp [accountTruthy, haid, haid', mapGet, Ne.symm hnp]
  · have hcalU2 : calendarOrPrimary ({ ev with calendar := some cal.id } : CalendarEvent).calendar
        = cal.id := by
      simp [calendarOrPrimary, hne]
    simp only [addEventToCalendar, hacc, htru, hevAcc, Option.getD_some, hfind, hcalU2,
      mapGet_mapSet_self, haid']
    simp [accountTruthy, haid, haid', mapGet]

/-- Witness for C9: after strict-disabling calendar index "2" (real id
"cal-b") for account 1, a candidate with no calendar field is still
dispatched to "primary" while a candidate naming "cal-b" verbatim is
skipped. -/
theorem disabled_guard_compares_literal_witness :
    disableAction stReg 1 "1" "2" =
      some (⟨[], [(1, [acct1])], [(1, [(1, ["cal-b"])])]⟩,
        "Calendar cal-b for account 1 has been disabled.") ∧
    addEventToCalendar ⟨[], [(1, [acct1])], [(1, [(1, ["cal-b"])])]⟩ 1 evPrim oracleFalse =
      .dispatched "primary" 1 false ∧
    addEventToCalendar ⟨[], [(1, [acct1])], [(1, [(1, ["cal-b"])])]⟩ 1
      { evPrim with calendar := some "cal-b" } oracleFalse = .skippedDisabled "cal-b" 1 := by
  have h := disabled_guard_compares_literal stReg 1 1 [acct1] acct1 "1" "2" 2 calB evPrim
    oracleFalse (by decide) (by decide) (by decide) (by unfold isDecimalString; decide)
    (by decide) (by decide) (by decide) (by decide) (by decide) (Or.inl (by decide))
    (by decide) (by decide)
  refine ⟨h.1.trans (by decide), h.2.1.trans (by decide), h.2.2.trans (by decide)⟩

/-- Witness for C8: two registrations in conversation 7; the second stored
account carries accountId 2 = 1 + 1. -/
theorem accountIds_sequential_after_ops_witness :
    mapGet (applyRegOps emptyBotState regOpsEx).oauthAccounts 7 =
      some [⟨1, some "a@x.test", "t1", [calA]⟩, ⟨2, some "b@x.test", "t2", [calB]⟩] ∧
    (⟨2, some "b@x.test", "t2", [calB]⟩ : OAuthAccount).accountId = ((1 : Nat) : Int) + 1 := by
  constructor
  · decide
  · exact accountIds_sequential_after_ops regOpsEx 7
      [⟨1, some "a@x.test", "t1", [calA]⟩, ⟨2, some "b@x.test", "t2", [calB]⟩]
      (by decide) 1 ⟨2, some "b@x.test", "t2", [calB]⟩ (by decide)

/-- C7: save followed by load into an empty process reproduces, for every
conversation with account state, the same account list (accountId, email,
calendars, token material — the live client is rebuilt around the tokens)
and an extensionally equal DisabledSet; and a persisted conversation record
with no disabled-set section loads as an empty DisabledSet.  The
hypotheses are the representation invariants of the source's Maps: keys
are unique, and a disabled-set entry only exists for a conversation that
has accounts. -/
theorem authCache_roundtrip (st : BotState)
    (hnd : keysNodup st.oauthAccounts)
    (hsub : ∀ c, mapGet st.oauthAccounts c = none → mapGet st.disabledCalendars c = none) :
    (∀ c accounts, mapGet st.oauthAccounts c = some accounts →
      mapGet (loadAuthCache emptyBotState (saveAuthCache st)).oauthAccounts c =
        some accounts) ∧
    (∀ c a, disabledFor (loadAuthCache emptyBotState (saveAuthCache st)) c a =
      disabledFor st c a) ∧
    (∀ (c : Int) (accts : List SavedAccount) (a : Int),
      disabledFor (loadAuthCache emptyBotState [(c, ⟨accts, none⟩)]) c a = []) := by
  have hkeys : (saveAuthCache st).map Prod.fst = st.oauthAccounts.map Prod.fst :=
    saveAuthCache_keys st
  have hndS : ((saveAuthCache st).map Prod.fst).Nodup := by
    rw [hkeys]
    exact hnd
  have hsave : ∀ c, mapGet (saveAuthCache st) c = (mapGet st.oauthAccounts c).map
      (fun accounts => (⟨accounts.map saveAccount,
        some ((mapGet st.disabledCalendars c).getD [])⟩ : ChatCacheData)) := by
    intro c
    exact mapGet_map_keydep
      (fun ch l => (⟨l.map saveAccount,
        some ((mapGet st.disabledCalendars ch).getD [])⟩ : ChatCacheData))
      st.oauthAccounts c
  refine ⟨?_, ?_, ?_⟩
  · intro c accounts hacc
    have hc : mapGet (saveAuthCache st) c = some
        (⟨accounts.map saveAccount,
          some ((mapGet st.disabledCalendars c).getD [])⟩ : ChatCacheData) := by
      rw [hsave c, hacc]
      rfl
    have hload := loadAuthCache_mem (saveAuthCache st) emptyBotState c _ hndS hc
    rw [hload.1]
    exact congrArg some (loadAccount_roundtrip accounts)
  · intro c a
    cases hacc : mapGet st.oauthAccounts c with
    | some l =>
      have hc : mapGet (saveAuthCache st) c = some
          (⟨l.map saveAccount,
            some ((mapGet st.disabledCalendars c).getD [])⟩ : ChatCacheData) := by
        rw [hsave c, hacc]
        rfl
      have hload := loadAuthCache_mem (saveAuthCache st) emptyBotState c _ hndS hc
      simp only [disabledFor, hload.2]
      rfl
    | none =>
      have hdisn := hsub c hacc
      have hnotin : c ∉ (saveAuthCache st).map Prod.fst := by
        rw [hkeys]
        exact (mapGet_eq_none_iff _ _).mp hacc
      have hload := loadAuthCache_not_mem (saveAuthCache st) emptyBotState c hnotin
      simp only [disabledFor, hload.2, hdisn]
      rfl
  · intro c accts a
    simp [loadAuthCache, disabledFor, mapSet, mapGet, emptyBotState]

/-- Witness for C7: one conversation with one account and one disabled
calendar round-trips through save-then-load; a record with no disabled
section loads with an empty disabled set. -/
theorem authCache_roundtrip_witness :
    mapGet (loadAuthCache emptyBotState (saveAuthCache stPersist)).oauthAccounts 1 =
      some [acct1] ∧
    disabledFor (loadAuthCache emptyBotState (saveAuthCache stPersist)) 1 1 = ["cal-b"] ∧
    disabledFor (loadAuthCache emptyBotState [(5, ⟨[⟨1, none, [], "t"⟩], none⟩)]) 5 1 = [] := by
  have h := authCache_roundtrip stPersist (by unfold keysNodup; decide)
    (by
      intro c hc
      by_cases h1 : (1 : Int) = c
      · simp [stPersist, mapGet, h1] at hc
      · simp [stPersist, mapGet, h1])
  exact ⟨h.1 1 [acct1] (by decide), (h.2.1 1 1).trans (by decide),
    h.2.2 5 [⟨1, none, [], "t"⟩] 1⟩

end TgCal
